import Mathlib

/-!
Verification of the guestbook drawing store in
`src/pages/api/guestbook.ts`.

Byte buffers (`Uint8Array`) are modelled as `List Nat`; the stored objects
(`drawings.bin`, `drawing-metadata.json`, `blocked-ips.json`) become the
fields of `StoreState`; each HTTP handler becomes a pure function from the
current store state and the request data to a result status plus the new
store state.  A thrown JS exception that the handler catches is modelled by
the corresponding `Option`/branch returning the handler's 500 result.
-/

namespace Guestbook

/-- The delimiter byte value separating drawing records (`delimiter = new
Uint8Array([255])` in the source). -/
def delimiterByte : Nat := 255

/-- One entry of `drawing-metadata.json`: `{ id?: string; ip?: string;
timestamp?: number }`.  Absent fields are `none`. -/
structure DrawingMetadata where
  id : Option String
  ip : Option String
  timestamp : Option Nat
deriving DecidableEq

/-- A metadata entry with every field absent, as pushed by the backfill loop
(`{ id: undefined, ip: undefined, timestamp: undefined }`). -/
def blankMetadata : DrawingMetadata := ⟨none, none, none⟩

/-- The three persisted objects of the store: `drawings.bin` (`none` when
the object is absent), `drawing-metadata.json` (an absent object reads as
`[]` in `getDrawingMetadata`), and `blocked-ips.json` (a JS `Set` of
strings, kept in insertion order). -/
structure StoreState where
  drawings : Option (List Nat)
  metadata : List DrawingMetadata
  blockedIPs : List String
deriving DecidableEq

/-- The request data the handlers inspect: the three IP headers read by
`getClientIP`, the raw binary body, and the three headers read by the
DELETE handler.  `none` models an absent header. -/
structure GuestRequest where
  cfConnectingIP : Option String
  xForwardedFor : Option String
  xRealIP : Option String
  body : List Nat
  secretKey : Option String
  drawingIndex : Option String
  blockIP : Option String
deriving DecidableEq

/-- A handler outcome: the HTTP status of the response together with the
store state after the handler ran. -/
structure HandlerResult where
  status : Nat
  state : StoreState
deriving DecidableEq

/-- JS truthiness of a nullable header string: `null` and the empty string
are falsy. -/
def headerTruthy : Option String → Bool
  | some s => !(s == "")
  | none => false

/-- `xForwardedFor.split(',')[0].trim()`: the part before the first comma,
with surrounding whitespace removed. -/
def firstForwardedIP (s : String) : String :=
  ((s.splitOn ",").headD "").trim

/-- `getClientIP` from the source: try `CF-Connecting-IP`, then the first
entry of `X-Forwarded-For`, then `X-Real-IP`; `undefined` otherwise.  A
present-but-empty header is falsy in JS and falls through. -/
def getClientIP (r : GuestRequest) : Option String :=
  if headerTruthy r.cfConnectingIP then r.cfConnectingIP
  else if headerTruthy r.xForwardedFor then
    some (firstForwardedIP (r.xForwardedFor.getD ""))
  else if headerTruthy r.xRealIP then r.xRealIP
  else none

/-- The key POST tests against the blocked set:
`blockedIPs.has(clientIP || "---")` — an absent or empty (falsy) client IP
is replaced by the sentinel string. -/
def blockLookupKey (clientIP : Option String) : String :=
  match clientIP with
  | some s => if s = "" then "---" else s
  | none => "---"

/-- Value of a (already validated) decimal digit string, most significant
digit first. -/
def decDigitsValue (l : List Char) : Nat :=
  l.foldl (fun acc c => acc * 10 + (c.toNat - 48)) 0

/-- Whitespace characters skipped by JS `parseInt` before the number. -/
def jsSpace (c : Char) : Bool :=
  (c == ' ') || (c == '\t') || (c == '\n') || (c == '\r')

/-- JS `parseInt(s, 10)`: skip leading whitespace, read an optional sign and
then the longest prefix of decimal digits; `NaN` (here `none`) when that
prefix is empty.  Trailing garbage is ignored. -/
def parseIntBase10 (s : String) : Option Int :=
  let t := s.toList.dropWhile jsSpace
  let core : List Char × Bool :=
    match t with
    | '-' :: rest => (rest, true)
    | '+' :: rest => (rest, false)
    | l => (l, false)
  let ds := core.1.takeWhile Char.isDigit
  if ds.isEmpty then none
  else if core.2 then some (-(decDigitsValue ds : Int))
  else some ((decDigitsValue ds : Int))

/-- `parseDrawings` from the source: scan the blob; every delimiter byte
ends the current segment; a segment pushed only when nonempty
(`if (i > startIndex)`), and a nonempty tail after the last delimiter is the
final record.  This is exactly: split on the delimiter and drop the empty
segments. -/
def parseDrawings (fileContent : List Nat) : List (List Nat) :=
  (fileContent.splitOn delimiterByte).filter (fun r => !r.isEmpty)

/-- The byte content the `forEach` loop of `serializeDrawings` writes into
the output buffer: each drawing followed by one delimiter byte, except
after the last drawing. -/
def joinWithDelim : List (List Nat) → List Nat
  | [] => []
  | [r] => r
  | r :: s :: rest => r ++ delimiterByte :: joinWithDelim (s :: rest)

/-- `totalLength = drawingsData.length * 64 + drawingsData.length - 1`, as
the JS number it is: `-1` for the empty sequence. -/
def serializeTotalLength (drawingsData : List (List Nat)) : Int :=
  (drawingsData.length : Int) * 64 + (drawingsData.length : Int) - 1

/-- `serializeDrawings` from the source.  It allocates a zero-filled buffer
of `length * 64 + length - 1` bytes — `new Uint8Array(-1)` throws a
`RangeError` for the empty sequence (`none`) — then writes the records with
one delimiter between adjacent records; a write reaching past the end of
the buffer throws (`none`); bytes after the written content stay zero. -/
def serializeDrawings (drawingsData : List (List Nat)) : Option (List Nat) :=
  if serializeTotalLength drawingsData < 0 then none
  else
    let totalLength := (serializeTotalLength drawingsData).toNat
    let content := joinWithDelim drawingsData
    if totalLength < content.length then none
    else some (content ++ List.replicate (totalLength - content.length) 0)

/-- Copy of a store state with the drawings object replaced
(`env.DRAWINGS.put(DRAWINGS_KEY, ...)`). -/
def setDrawings (env : StoreState) (d : List Nat) : StoreState :=
  ⟨some d, env.metadata, env.blockedIPs⟩

/-- Copy of a store state with the metadata object replaced
(`saveDrawingMetadata`). -/
def setMetadata (env : StoreState) (m : List DrawingMetadata) : StoreState :=
  ⟨env.drawings, m, env.blockedIPs⟩

/-- Copy of a store state with the blocked-IP object replaced
(`saveBlockedIPs`). -/
def setBlockedIPs (env : StoreState) (b : List String) : StoreState :=
  ⟨env.drawings, env.metadata, b⟩

/-- `backfillMetadata` from the source: read the metadata array; when it is
shorter than the drawing count, prepend the missing number of blank entries
and persist; otherwise return it unchanged without writing.  Returns the
array the caller continues with, paired with the store state after the
call. -/
def backfillMetadataStep (env : StoreState) (drawingCount : Nat) :
    List DrawingMetadata × StoreState :=
  if env.metadata.length < drawingCount then
    let updated :=
      List.replicate (drawingCount - env.metadata.length) blankMetadata ++ env.metadata
    (updated, setMetadata env updated)
  else (env.metadata, env)

/-- The GET handler body: the raw bytes of the drawings object, an absent
object read as an empty buffer.  (The response status is 200.) -/
def GET (env : StoreState) : List Nat := env.drawings.getD []

/-- The POST handler.  `newId` and `now` stand for the
`Date.now()`/`Math.random()`-derived id and timestamp; `fetchOk` is whether
the awaited webhook `fetch` resolves — when it rejects, the surrounding
`try/catch` turns the response into a 500 (the storage writes before it
already happened). -/
def POST (env : StoreState) (r : GuestRequest) (newId : String) (now : Nat)
    (fetchOk : Bool) : HandlerResult :=
  let clientIP := getClientIP r
  if env.blockedIPs.contains (blockLookupKey clientIP) then
    ⟨503, env⟩
  else
    let existingBuffer := env.drawings.getD []
    let drawingsData := parseDrawings existingBuffer ++ [r.body]
    match serializeDrawings drawingsData with
    | none => ⟨500, env⟩
    | some newBuffer =>
      let env1 := setDrawings env newBuffer
      let step := backfillMetadataStep env1 (drawingsData.length - 1)
      let md := step.1 ++ [DrawingMetadata.mk (some newId) clientIP (some now)]
      let env2 := setMetadata step.2 md
      if fetchOk then ⟨200, env2⟩ else ⟨500, env2⟩

/-- The part of the DELETE handler after the secret and index validation
and the not-found checks: `fileContent` is the bytes of the drawings
object, `idxInt` the parsed (non-negative) `drawing-index` header. -/
def deleteCore (env : StoreState) (r : GuestRequest) (fetchOk : Bool)
    (fileContent : List Nat) (idxInt : Int) : HandlerResult :=
  let shouldBlockIP := r.blockIP = some "true"
  let drawingsData := parseDrawings fileContent
  if idxInt ≥ (drawingsData.length : Int) then ⟨400, env⟩
  else
    let idx : Nat := idxInt.toNat
    let step := backfillMetadataStep env drawingsData.length
    let md := step.1
    let env1 := step.2
    let ipToBlock : Option String :=
      if shouldBlockIP then
        match (md.get? idx).bind DrawingMetadata.ip with
        | some ip => if ip = "" then none else some ip
        | none => none
      else none
    let remaining := drawingsData.eraseIdx idx
    match serializeDrawings remaining with
    | none => ⟨500, env1⟩
    | some newBuffer =>
      let env2 := setDrawings env1 newBuffer
      let env3 := setMetadata env2 (md.eraseIdx idx)
      match ipToBlock with
      | some ip =>
        let blocked2 :=
          if env3.blockedIPs.contains ip then env3.blockedIPs
          else env3.blockedIPs ++ [ip]
        let env4 := setBlockedIPs env3 blocked2
        if fetchOk then ⟨200, env4⟩ else ⟨500, env4⟩
      | none =>
        if shouldBlockIP then
          (if fetchOk then ⟨200, env3⟩ else ⟨500, env3⟩)
        else ⟨200, env3⟩

/-- The DELETE handler.  `serverKey` is `GUESTBOOK_SECRET_KEY`; `fetchOk` is
whether the webhook `fetch` (reached only on the block-IP paths) resolves —
when it rejects the `try/catch` yields a 500 after the storage writes
already happened. -/
def DELETE (env : StoreState) (r : GuestRequest) (serverKey : String)
    (fetchOk : Bool) : HandlerResult :=
  let clientKey := r.secretKey
  let idxParsed : Option Int := r.drawingIndex.bind parseIntBase10
  if ¬ headerTruthy clientKey = true ∨ idxParsed = none ∨ idxParsed.getD 0 < 0 then
    ⟨400, env⟩
  else if clientKey.getD "" ≠ serverKey then
    ⟨403, env⟩
  else
    match env.drawings with
    | none => ⟨404, env⟩
    | some fileContent =>
      if fileContent.length = 0 then ⟨404, env⟩
      else deleteCore env r fetchOk fileContent (idxParsed.getD 0)

/-- A POST request carrying only a body: no IP headers, no DELETE headers. -/
def plainRequest (body : List Nat) : GuestRequest :=
  ⟨none, none, none, body, none, none, none⟩

/-- Run one POST per payload, in order (webhook always resolving, arbitrary
fixed id/timestamp); the boolean records whether every call returned 200. -/
def appendMany : StoreState → List (List Nat) → Bool × StoreState
  | env, [] => (true, env)
  | env, p :: ps =>
    let res := POST env (plainRequest p) "id" 0 true
    let rest := appendMany res.state ps
    (decide (res.status = 200) && rest.1, rest.2)

/-! ### Helper lemmas about the codec -/

/-- The written content is the records intercalated with single delimiter
bytes. -/
theorem jwd_eq_intercalate :
    ∀ rs : List (List Nat), joinWithDelim rs = [delimiterByte].intercalate rs
  | [] => by simp [joinWithDelim, List.intercalate]
  | [r] => by simp [joinWithDelim, List.intercalate]
  | r :: s :: rest => by
    have ih := jwd_eq_intercalate (s :: rest)
    simp [joinWithDelim, List.intercalate, List.intersperse] at ih ⊢
    exact ih

/-- Length of the written content: the record lengths plus one delimiter
between each adjacent pair. -/
theorem length_jwd :
    ∀ rs : List (List Nat), rs ≠ [] →
      (joinWithDelim rs).length = (rs.map List.length).sum + (rs.length - 1)
  | [], h => absurd rfl h
  | [r], _ => by simp [joinWithDelim]
  | r :: s :: rest, _ => by
    have ih := length_jwd (s :: rest) (by simp)
    simp only [joinWithDelim, List.length_append, List.length_cons, ih,
      List.map_cons, List.sum_cons, List.length_cons]
    omega

/-- Unfolding `joinWithDelim` on a cons cell with a nonempty tail. -/
theorem jwd_cons_ne (r : List Nat) (l : List (List Nat)) (h : l ≠ []) :
    joinWithDelim (r :: l) = r ++ delimiterByte :: joinWithDelim l := by
  cases l with
  | nil => exact absurd rfl h
  | cons s rest => simp [joinWithDelim]

/-- Appending a suffix to the written content is the same as appending it to
the last record before writing. -/
theorem jwd_append_last :
    ∀ (rs : List (List Nat)) (a t : List Nat),
      joinWithDelim (rs ++ [a]) ++ t = joinWithDelim (rs ++ [a ++ t])
  | [], a, t => by simp [joinWithDelim]
  | r :: rest, a, t => by
    have ih := jwd_append_last rest a t
    rw [List.cons_append, List.cons_append,
      jwd_cons_ne r (rest ++ [a]) (by simp),
      jwd_cons_ne r (rest ++ [a ++ t]) (by simp)]
    simp only [List.append_assoc, List.cons_append, ih]

/-- Records of length 64 have lengths summing to `64 * count`. -/
theorem sum_lengths_64 :
    ∀ rs : List (List Nat), (∀ r ∈ rs, r.length = 64) →
      (rs.map List.length).sum = 64 * rs.length
  | [], _ => by simp
  | r :: rest, h => by
    have ih := sum_lengths_64 rest (fun x hx => h x (List.mem_cons_of_mem r hx))
    simp [ih, h r (List.mem_cons_self r rest)]
    ring

/-- No element of a `splitOnP` segment satisfies the splitting predicate. -/
theorem not_p_of_mem_splitOnP (p : Nat → Bool) :
    ∀ (l : List Nat) (r : List Nat), r ∈ l.splitOnP p → ∀ a ∈ r, ¬ p a = true := by
  intro l
  induction l with
  | nil =>
    intro r hr a ha
    rw [List.splitOnP_nil] at hr
    simp at hr
    subst hr
    simp at ha
  | cons x xs ih =>
    intro r hr a ha
    rw [List.splitOnP_cons] at hr
    by_cases hx : p x = true
    · rw [if_pos hx] at hr
      rcases List.mem_cons.mp hr with h | h
      · subst h; simp at ha
      · exact ih r h a ha
    · rw [if_neg hx] at hr
      obtain ⟨hhd, htl, heq⟩ : ∃ hd tl, xs.splitOnP p = hd :: tl := by
        cases hsp : xs.splitOnP p with
        | nil => exact absurd hsp (List.splitOnP_ne_nil p xs)
        | cons hd tl => exact ⟨hd, tl, rfl⟩
      rw [heq, List.modifyHead_cons] at hr
      rcases List.mem_cons.mp hr with h | h
      · subst h
        rcases List.mem_cons.mp ha with h' | h'
        · subst h'; exact hx
        · exact ih hhd (heq ▸ List.mem_cons_self hhd htl) a h'
      · exact ih r (heq ▸ List.mem_cons_of_mem hhd h) a ha

/-- Every record produced by `parseDrawings` is nonempty and free of the
delimiter byte. -/
theorem mem_parseDrawings (blob r : List Nat) (hr : r ∈ parseDrawings blob) :
    r ≠ [] ∧ delimiterByte ∉ r := by
  unfold parseDrawings at hr
  have h1 := List.of_mem_filter hr
  have h2 := List.mem_of_mem_filter hr
  refine ⟨by simpa using h1, ?_⟩
  intro hmem
  have h3 : r ∈ blob.splitOnP (fun a => a == delimiterByte) := by
    simpa [List.splitOn] using h2
  have := not_p_of_mem_splitOnP (fun a => a == delimiterByte) blob r h3 delimiterByte hmem
  simp at this

/-- Decoding the exactly-written content of nonempty, delimiter-free records
recovers the records. -/
theorem parse_jwd (rs : List (List Nat)) (hne : rs ≠ [])
    (hwf : ∀ r ∈ rs, r ≠ [] ∧ delimiterByte ∉ r) :
    parseDrawings (joinWithDelim rs) = rs := by
  unfold parseDrawings
  rw [jwd_eq_intercalate,
    List.splitOn_intercalate rs delimiterByte (fun l hl => (hwf l hl).2) hne]
  exact List.filter_eq_self.mpr (fun a ha => by simpa using (hwf a ha).1)

/-- Decoding the written content followed by zero padding: the padding is
absorbed into the final record. -/
theorem parse_jwd_pad (init : List (List Nat)) (lst : List Nat)
    (hwf : ∀ r ∈ init ++ [lst], r ≠ [] ∧ delimiterByte ∉ r) (z : Nat) :
    parseDrawings (joinWithDelim (init ++ [lst]) ++ List.replicate z 0) =
      init ++ [lst ++ List.replicate z 0] := by
  rw [jwd_append_last]
  apply parse_jwd
  · simp
  · intro r hr
    rcases List.mem_append.mp hr with h | h
    · exact hwf r (List.mem_append_left [lst] h)
    · have : r = lst ++ List.replicate z 0 := by simpa using h
      subst this
      have hlst := hwf lst (List.mem_append_right init (List.mem_singleton_self lst))
      constructor
      · intro hnil
        exact hlst.1 (List.append_eq_nil.mp hnil).1
      · intro hmem
        rcases List.mem_append.mp hmem with h' | h'
        · exact hlst.2 h'
        · have := (List.mem_replicate.mp h').2
          simp [delimiterByte] at this

/-- Shape of a successful serialization: the sequence was nonempty and the
buffer is the written content followed by zero padding. -/
theorem serialize_some_shape (rs : List (List Nat)) (buf : List Nat)
    (h : serializeDrawings rs = some buf) :
    rs ≠ [] ∧ ∃ z, buf = joinWithDelim rs ++ List.replicate z 0 := by
  unfold serializeDrawings at h
  split at h
  · exact absurd h (by simp)
  · rename_i h0
    dsimp only at h
    split at h
    · exact absurd h (by simp)
    · refine ⟨?_, ?_⟩
      · intro hnil
        subst hnil
        simp [serializeTotalLength] at h0
      · exact ⟨_, (Option.some_inj.mp h).symm⟩

/-- Serializing a nonempty sequence of 64-byte records writes exactly the
delimited content: no padding and no overflow. -/
theorem serialize_64 (rs : List (List Nat)) (hne : rs ≠ [])
    (h64 : ∀ r ∈ rs, r.length = 64) :
    serializeDrawings rs = some (joinWithDelim rs) := by
  have hk : 1 ≤ rs.length := List.length_pos.mpr hne
  have hlen : (joinWithDelim rs).length = 64 * rs.length + (rs.length - 1) := by
    rw [length_jwd rs hne, sum_lengths_64 rs h64]
  have h1 : ¬ serializeTotalLength rs < 0 := by
    simp only [serializeTotalLength]
    omega
  have h2 : (serializeTotalLength rs).toNat = (joinWithDelim rs).length := by
    simp only [serializeTotalLength, hlen]
    omega
  unfold serializeDrawings
  rw [if_neg h1, h2]
  simp

/-- Round trip for nonempty sequences of 64-byte delimiter-free records. -/
theorem roundTrip64 (rs : List (List Nat)) (hne : rs ≠ [])
    (h : ∀ r ∈ rs, r.length = 64 ∧ delimiterByte ∉ r) :
    (serializeDrawings rs).map parseDrawings = some rs := by
  rw [serialize_64 rs hne (fun r hr => (h r hr).1)]
  have hwf : ∀ r ∈ rs, r ≠ [] ∧ delimiterByte ∉ r := by
    intro r hr
    refine ⟨?_, (h r hr).2⟩
    intro hnil
    have := (h r hr).1
    rw [hnil] at this
    simp at this
  simp [parse_jwd rs hne hwf]

/-- A successful serialization of nonempty delimiter-free records decodes to
the same number of records. -/
theorem parse_serialize_length (rs : List (List Nat)) (buf : List Nat)
    (hwf : ∀ r ∈ rs, r ≠ [] ∧ delimiterByte ∉ r)
    (h : serializeDrawings rs = some buf) :
    (parseDrawings buf).length = rs.length := by
  obtain ⟨hne, z, rfl⟩ := serialize_some_shape rs buf h
  rcases List.eq_nil_or_concat rs with hnil | ⟨init, lst, rfl⟩
  · exact absurd hnil hne
  · simp only [List.concat_eq_append] at hwf ⊢
    rw [parse_jwd_pad init lst hwf z]
    simp

/-! ### Helper lemmas about the store operations -/

@[simp] theorem drawings_setMetadata (env : StoreState) (m : List DrawingMetadata) :
    (setMetadata env m).drawings = env.drawings := rfl

@[simp] theorem blockedIPs_setMetadata (env : StoreState) (m : List DrawingMetadata) :
    (setMetadata env m).blockedIPs = env.blockedIPs := rfl

@[simp] theorem metadata_setMetadata (env : StoreState) (m : List DrawingMetadata) :
    (setMetadata env m).metadata = m := rfl

@[simp] theorem drawings_setDrawings (env : StoreState) (d : List Nat) :
    (setDrawings env d).drawings = some d := rfl

@[simp] theorem blockedIPs_setDrawings (env : StoreState) (d : List Nat) :
    (setDrawings env d).blockedIPs = env.blockedIPs := rfl

@[simp] theorem metadata_setDrawings (env : StoreState) (d : List Nat) :
    (setDrawings env d).metadata = env.metadata := rfl

@[simp] theorem drawings_setBlockedIPs (env : StoreState) (b : List String) :
    (setBlockedIPs env b).drawings = env.drawings := rfl

@[simp] theorem metadata_setBlockedIPs (env : StoreState) (b : List String) :
    (setBlockedIPs env b).metadata = env.metadata := rfl

@[simp] theorem backfill_state_drawings (env : StoreState) (c : Nat) :
    (backfillMetadataStep env c).2.drawings = env.drawings := by
  unfold backfillMetadataStep
  split <;> simp

@[simp] theorem backfill_state_blockedIPs (env : StoreState) (c : Nat) :
    (backfillMetadataStep env c).2.blockedIPs = env.blockedIPs := by
  unfold backfillMetadataStep
  split <;> simp

@[simp] theorem backfill_state_metadata (env : StoreState) (c : Nat) :
    (backfillMetadataStep env c).2.metadata = (backfillMetadataStep env c).1 := by
  unfold backfillMetadataStep
  split <;> simp

theorem backfill_fst_length (env : StoreState) (c : Nat) :
    (backfillMetadataStep env c).1.length = max c env.metadata.length := by
  unfold backfillMetadataStep
  split <;> rename_i h <;> simp <;> omega

theorem backfill_of_ge (env : StoreState) (c : Nat) (h : c ≤ env.metadata.length) :
    backfillMetadataStep env c = (env.metadata, env) := by
  unfold backfillMetadataStep
  rw [if_neg (by omega)]

/-! ### Claim C1 -/

/-- Claim C1, counterexample: the round trip `parseDrawings ∘
serializeDrawings` fails for the empty sequence (serialization throws) and
for a single record of length 1 (the output is padded to 64 bytes, so the
decoded record carries 63 extra zero bytes). -/
theorem c1_counterexample :
    ((serializeDrawings ([] : List (List Nat))).map parseDrawings ≠ some []) ∧
      ((serializeDrawings [[(1 : Nat)]]).map parseDrawings ≠ some [[1]]) := by
  constructor <;> decide

/-- Claim C1 (amended): the codec round trip holds for every nonempty
sequence of records that are each exactly 64 bytes long and free of the
delimiter byte 255: decoding the encoding returns the same sequence (so for
lengths 1 and N>1; the empty sequence makes `serializeDrawings` throw, and
records of other lengths break the round trip, as the counterexample
shows). -/
theorem c1_round_trip_64 (rs : List (List Nat)) (hne : rs ≠ [])
    (h : ∀ r ∈ rs, r.length = 64 ∧ delimiterByte ∉ r) :
    (serializeDrawings rs).map parseDrawings = some rs :=
  roundTrip64 rs hne h

/-- Claim C1, witness: the amended round trip evaluated on two concrete
64-byte records. -/
theorem c1_round_trip_64_witness :
    (serializeDrawings [List.replicate 64 1, List.replicate 64 2]).map parseDrawings
      = some [List.replicate 64 1, List.replicate 64 2] :=
  c1_round_trip_64 [List.replicate 64 1, List.replicate 64 2] (by simp) (by decide)

/-! ### Claim C2 -/

/-- Claim C2, counterexample: for the single record `[1]` the encoder does
not produce the bare concatenation — the output has length 64, not the sum
of record lengths plus (count − 1), which is 1. -/
theorem c2_counterexample :
    (serializeDrawings [[(1 : Nat)]]).map List.length = some 64 ∧
      ([[(1 : Nat)]].map List.length).sum + ([[(1 : Nat)]].length - 1) = 1 ∧
      (64 : Nat) ≠ 1 := by
  refine ⟨by decide, by decide, by decide⟩

/-- Claim C2 (amended): for every nonempty sequence of records each exactly
64 bytes long, `serializeDrawings` produces exactly the concatenation of
the records with exactly one delimiter byte between adjacent records — no
leading or trailing delimiter, no other bytes (`List.intercalate` of the
records with the one-byte delimiter) — and the output length is the sum of
the record lengths plus (count − 1).  (For the empty sequence it throws,
and for other record lengths it zero-pads or throws, see the
counterexample.) -/
theorem c2_encode_format_64 (rs : List (List Nat)) (hne : rs ≠ [])
    (h64 : ∀ r ∈ rs, r.length = 64) :
    serializeDrawings rs = some (joinWithDelim rs) ∧
      joinWithDelim rs = [delimiterByte].intercalate rs ∧
      (joinWithDelim rs).length = (rs.map List.length).sum + (rs.length - 1) :=
  ⟨serialize_64 rs hne h64, jwd_eq_intercalate rs, length_jwd rs hne⟩

/-- Claim C2, witness: the amended encoder contract evaluated on a concrete
single 64-byte record. -/
theorem c2_encode_format_64_witness :
    serializeDrawings [List.replicate 64 3] = some (joinWithDelim [List.replicate 64 3]) ∧
      joinWithDelim [List.replicate 64 3] = [delimiterByte].intercalate [List.replicate 64 3] ∧
      (joinWithDelim [List.replicate 64 3]).length
        = ([List.replicate 64 3].map List.length).sum + ([List.replicate 64 3].length - 1) :=
  c2_encode_format_64 [List.replicate 64 3] (by simp) (by decide)

/-- Evaluation of the POST handler when the client is not blocked and the
re-serialization succeeds: both storage objects are written, and the
response is 200 exactly when the webhook fetch resolves. -/
theorem POST_success (env : StoreState) (r : GuestRequest) (newId : String) (now : Nat)
    (fetchOk : Bool) (buf : List Nat)
    (hnb : env.blockedIPs.contains (blockLookupKey (getClientIP r)) = false)
    (hser : serializeDrawings (parseDrawings (env.drawings.getD []) ++ [r.body]) = some buf) :
    POST env r newId now fetchOk =
      ⟨if fetchOk then 200 else 500,
        setMetadata
          (backfillMetadataStep (setDrawings env buf)
            ((parseDrawings (env.drawings.getD []) ++ [r.body]).length - 1)).2
          ((backfillMetadataStep (setDrawings env buf)
            ((parseDrawings (env.drawings.getD []) ++ [r.body]).length - 1)).1
            ++ [DrawingMetadata.mk (some newId) (getClientIP r) (some now)])⟩ := by
  unfold POST
  dsimp only
  rw [hnb, hser]
  cases fetchOk <;> simp

/-- Running `appendMany` over well-formed 64-byte payloads: every call
succeeds, the final log decodes to the old records followed by the
payloads, and the blocked set is untouched. -/
theorem appendMany_invariant :
    ∀ (ps : List (List Nat)) (env : StoreState) (rs : List (List Nat)),
      "---" ∉ env.blockedIPs →
      (∀ r ∈ rs, r.length = 64 ∧ delimiterByte ∉ r) →
      (∀ p ∈ ps, p.length = 64 ∧ delimiterByte ∉ p) →
      parseDrawings (env.drawings.getD []) = rs →
      (appendMany env ps).1 = true ∧
        parseDrawings ((appendMany env ps).2.drawings.getD []) = rs ++ ps ∧
        (appendMany env ps).2.blockedIPs = env.blockedIPs
  | [], env, rs, _, _, _, hparse => by
    simp [appendMany, hparse]
  | p :: ps, env, rs, hblock, hrs, hps, hparse => by
    have hp := hps p (List.mem_cons_self p ps)
    have hwf1 : ∀ r ∈ rs ++ [p], r.length = 64 ∧ delimiterByte ∉ r := by
      intro r hr
      rcases List.mem_append.mp hr with h | h
      · exact hrs r h
      · simpa using (by simpa using h : r = p) ▸ hp
    have h64 : ∀ r ∈ rs ++ [p], r.length = 64 := fun r hr => (hwf1 r hr).1
    have hser : serializeDrawings (parseDrawings (env.drawings.getD [])
        ++ [(plainRequest p).body]) = some (joinWithDelim (rs ++ [p])) := by
      rw [show (plainRequest p).body = p from rfl, hparse]
      exact serialize_64 (rs ++ [p]) (by simp) h64
    have hnb : env.blockedIPs.contains (blockLookupKey (getClientIP (plainRequest p)))
        = false := by
      have hip : getClientIP (plainRequest p) = none := rfl
      rw [hip]
      simpa [blockLookupKey] using hblock
    have hpost := POST_success env (plainRequest p) "id" 0 true
      (joinWithDelim (rs ++ [p])) hnb hser
    have hwfout : ∀ r ∈ rs ++ [p], r ≠ [] ∧ delimiterByte ∉ r := by
      intro r hr
      refine ⟨?_, (hwf1 r hr).2⟩
      intro hnil
      have := (hwf1 r hr).1
      rw [hnil] at this
      simp at this
    have hstep := appendMany_invariant ps
      (POST env (plainRequest p) "id" 0 true).state (rs ++ [p])
      (by rw [hpost]; simpa using hblock)
      hwf1
      (fun q hq => hps q (List.mem_cons_of_mem p hq))
      (by rw [hpost]
          simpa using parse_jwd (rs ++ [p]) (by simp) hwfout)
    refine ⟨?_, ?_, ?_⟩
    · simp only [appendMany]
      rw [hpost] at hstep ⊢
      simp only [hstep.1]
      simp
    · simp only [appendMany]
      rw [hpost] at hstep ⊢
      simpa using hstep.2.1
    · simp only [appendMany]
      rw [hpost] at hstep ⊢
      rw [hstep.2.2]
      simp

/-! ### Claim C3 -/

/-- Claim C3, counterexample: one successful POST of the 1-byte payload
`[1]` onto an absent log produces a blob that does not decode back to
`[[1]]` (the stored record is zero-padded to 64 bytes). -/
theorem c3_counterexample :
    (appendMany ⟨none, [], []⟩ [[1]]).1 = true ∧
      parseDrawings (GET (appendMany ⟨none, [], []⟩ [[1]]).2) ≠ [[1]] := by
  constructor <;> decide

/-- Claim C3 (amended): append is monotonic for 64-byte payloads — for
every N distinct payloads, each exactly 64 bytes and free of the delimiter
byte, starting from an absent or empty log whose blocked set does not
contain the sentinel "---", all N POST calls succeed and a GET returns a
blob whose decoding is exactly those N payloads in submission order. -/
theorem c3_append_monotonic_64 (env : StoreState) (payloads : List (List Nat))
    (hinit : env.drawings = none ∨ env.drawings = some [])
    (hblock : "---" ∉ env.blockedIPs)
    (hp : ∀ p ∈ payloads, p.length = 64 ∧ delimiterByte ∉ p)
    (_hdistinct : payloads.Nodup) :
    (appendMany env payloads).1 = true ∧
      parseDrawings (GET (appendMany env payloads).2) = payloads := by
  have hparse : parseDrawings (env.drawings.getD []) = [] := by
    rcases hinit with h | h <;> rw [h] <;> rfl
  have := appendMany_invariant payloads env [] hblock (by simp) hp hparse
  exact ⟨this.1, by simpa [GET] using this.2.1⟩

/-- Claim C3, witness: two successful appends of concrete 64-byte payloads
onto an absent log decode back in submission order. -/
theorem c3_append_monotonic_64_witness :
    (appendMany ⟨none, [], []⟩ [List.replicate 64 1, List.replicate 64 2]).1 = true ∧
      parseDrawings (GET (appendMany ⟨none, [], []⟩ [List.replicate 64 1, List.replicate 64 2]).2)
        = [List.replicate 64 1, List.replicate 64 2] :=
  c3_append_monotonic_64 ⟨none, [], []⟩ [List.replicate 64 1, List.replicate 64 2]
    (Or.inl rfl) (by simp) (by decide) (by decide)

/-- When the secret matches and the index header parses to a non-negative
integer and the drawings object exists and is nonempty, DELETE runs its
main body. -/
theorem DELETE_eq_core (env : StoreState) (rq : GuestRequest) (key : String)
    (fetchOk : Bool) (fileContent : List Nat) (i : Int)
    (hkey : rq.secretKey = some key) (hkeyne : key ≠ "")
    (hidx : rq.drawingIndex.bind parseIntBase10 = some i) (hi0 : 0 ≤ i)
    (hdr : env.drawings = some fileContent) (hfc : fileContent ≠ []) :
    DELETE env rq key fetchOk = deleteCore env rq fetchOk fileContent i := by
  unfold DELETE
  dsimp only
  rw [hkey, hidx, hdr]
  rw [if_neg (by
    push_neg
    exact ⟨by simp [headerTruthy, hkeyne], by simp, by simpa using hi0⟩)]
  rw [if_neg (by simp)]
  dsimp only
  rw [if_neg (by simpa using hfc)]
  simp

/-! ### Claim C4 -/

/-- Claim C4, counterexample: with the log `[1] ++ [255] ++ [2] ++ [255] ++
[3]`, which decodes to the three records `[[1],[2],[3]]`, a valid DELETE of
index 1 does not leave a blob decoding to `[[1],[3]]`: re-serialization
pads the remaining two records to a 129-byte buffer whose final record
carries 126 extra zero bytes. -/
theorem c4_counterexample :
    parseDrawings [1, 255, 2, 255, 3] = [[1], [2], [3]] ∧
      (DELETE ⟨some [1, 255, 2, 255, 3], [], []⟩
          ⟨none, none, none, [], some "k", some "1", none⟩ "k" true).status = 200 ∧
      parseDrawings ((DELETE ⟨some [1, 255, 2, 255, 3], [], []⟩
          ⟨none, none, none, [], some "k", some "1", none⟩ "k" true).state.drawings.getD [])
        ≠ [[1], [3]] := by
  refine ⟨by decide, by decide, by decide⟩

/-- Claim C4 (amended): for a log holding three records of exactly 64
delimiter-free bytes each, a successful DELETE with valid secret and index
1 writes back a blob whose decoding equals `[record0, record2]`, and the
metadata entry at ordinal position 1 of the backfilled metadata array is
removed; the blocked set is untouched.  (For records of other lengths the
re-serialization pads or throws, see the counterexample.) -/
theorem c4_delete_index1_64 (env : StoreState) (r0 r1 r2 : List Nat)
    (rq : GuestRequest) (key : String)
    (h0 : r0.length = 64) (h1 : r1.length = 64) (h2 : r2.length = 64)
    (d0 : delimiterByte ∉ r0) (d1 : delimiterByte ∉ r1) (d2 : delimiterByte ∉ r2)
    (hdr : env.drawings = some (joinWithDelim [r0, r1, r2]))
    (hkey : rq.secretKey = some key) (hkeyne : key ≠ "")
    (hidx : rq.drawingIndex = some "1")
    (hnoblock : rq.blockIP = none) :
    (DELETE env rq key true).status = 200 ∧
      parseDrawings ((DELETE env rq key true).state.drawings.getD []) = [r0, r2] ∧
      (DELETE env rq key true).state.metadata
        = ((backfillMetadataStep env 3).1).eraseIdx 1 ∧
      (DELETE env rq key true).state.blockedIPs = env.blockedIPs := by
  have e0 : r0 ≠ [] := by intro h; rw [h] at h0; simp at h0
  have e1 : r1 ≠ [] := by intro h; rw [h] at h1; simp at h1
  have e2 : r2 ≠ [] := by intro h; rw [h] at h2; simp at h2
  have hwf : ∀ r ∈ [r0, r1, r2], r ≠ [] ∧ delimiterByte ∉ r := by
    intro r hr
    simp only [List.mem_cons, List.not_mem_nil, or_false] at hr
    rcases hr with h | h | h
    · subst h; exact ⟨e0, d0⟩
    · subst h; exact ⟨e1, d1⟩
    · subst h; exact ⟨e2, d2⟩
  have hwf2 : ∀ r ∈ [r0, r2], r ≠ [] ∧ delimiterByte ∉ r := by
    intro r hr
    simp only [List.mem_cons, List.not_mem_nil, or_false] at hr
    rcases hr with h | h
    · subst h; exact ⟨e0, d0⟩
    · subst h; exact ⟨e2, d2⟩
  have hparse : parseDrawings (joinWithDelim [r0, r1, r2]) = [r0, r1, r2] :=
    parse_jwd [r0, r1, r2] (by simp) hwf
  have hone : parseIntBase10 "1" = some 1 := by decide
  have hcore : DELETE env rq key true
      = deleteCore env rq true (joinWithDelim [r0, r1, r2]) 1 := by
    apply DELETE_eq_core env rq key true (joinWithDelim [r0, r1, r2]) 1 hkey hkeyne
      (by rw [hidx]; simpa using hone) (by omega) hdr
    intro h
    have := congrArg List.length (hparse.symm.trans (congrArg parseDrawings h))
    simp [parseDrawings] at this
  have hser2 : serializeDrawings [r0, r2] = some (joinWithDelim [r0, r2]) := by
    apply serialize_64 [r0, r2] (by simp)
    intro r hr
    simp only [List.mem_cons, List.not_mem_nil, or_false] at hr
    rcases hr with h | h
    · subst h; exact h0
    · subst h; exact h2
  have herase : [r0, r1, r2].eraseIdx 1 = [r0, r2] := rfl
  have hcoreval : deleteCore env rq true (joinWithDelim [r0, r1, r2]) 1
      = ⟨200, setMetadata
          (setDrawings (backfillMetadataStep env 3).2 (joinWithDelim [r0, r2]))
          (((backfillMetadataStep env 3).1).eraseIdx 1)⟩ := by
    unfold deleteCore
    dsimp only
    rw [hparse]
    rw [if_neg (by simp)]
    have hblk : (rq.blockIP = some "true") = False := by
      rw [hnoblock]; simp
    simp only [hblk, if_false, show Int.toNat 1 = 1 from rfl,
      show [r0, r1, r2].length = 3 from rfl, herase, hser2]
  rw [hcore, hcoreval]
  refine ⟨rfl, ?_, by simp, by simp⟩
  simpa using parse_jwd [r0, r2] (by simp) hwf2

/-- Claim C4, witness: the amended delete-index-1 property evaluated on
three concrete 64-byte records. -/
theorem c4_delete_index1_64_witness :
    (DELETE ⟨some (joinWithDelim [List.replicate 64 1, List.replicate 64 2, List.replicate 64 3]), [], []⟩
        ⟨none, none, none, [], some "s", some "1", none⟩ "s" true).status = 200 ∧
      parseDrawings ((DELETE ⟨some (joinWithDelim [List.replicate 64 1, List.replicate 64 2, List.replicate 64 3]), [], []⟩
        ⟨none, none, none, [], some "s", some "1", none⟩ "s" true).state.drawings.getD [])
        = [List.replicate 64 1, List.replicate 64 3] ∧
      (DELETE ⟨some (joinWithDelim [List.replicate 64 1, List.replicate 64 2, List.replicate 64 3]), [], []⟩
        ⟨none, none, none, [], some "s", some "1", none⟩ "s" true).state.metadata
        = ((backfillMetadataStep ⟨some (joinWithDelim [List.replicate 64 1, List.replicate 64 2, List.replicate 64 3]), [], []⟩ 3).1).eraseIdx 1 ∧
      (DELETE ⟨some (joinWithDelim [List.replicate 64 1, List.replicate 64 2, List.replicate 64 3]), [], []⟩
        ⟨none, none, none, [], some "s", some "1", none⟩ "s" true).state.blockedIPs
        = StoreState.blockedIPs ⟨some (joinWithDelim [List.replicate 64 1, List.replicate 64 2, List.replicate 64 3]), [], []⟩ :=
  c4_delete_index1_64 _ (List.replicate 64 1) (List.replicate 64 2) (List.replicate 64 3)
    ⟨none, none, none, [], some "s", some "1", none⟩ "s"
    (by decide) (by decide) (by decide) (by decide) (by decide) (by decide)
    rfl rfl (by decide) rfl rfl

/-! ### Claim C5 -/

/-- Claim C5, counterexample: with an absent drawings object the record
count is 0, so index 0 is not strictly less than the record count, yet a
DELETE with valid secret and index header "0" returns 404, not the 400 the
claim assigns to an out-of-bounds index. -/
theorem c5_counterexample :
    parseDrawings ((StoreState.drawings ⟨none, [], []⟩).getD []) = [] ∧
      (DELETE ⟨none, [], []⟩ ⟨none, none, none, [], some "k", some "0", none⟩ "k" true).status = 404 ∧
      (DELETE ⟨none, [], []⟩ ⟨none, none, none, [], some "k", some "0", none⟩ "k" true).status ≠ 400 := by
  refine ⟨by decide, by decide, by decide⟩

/-- Claim C5 (amended): DELETE validation is side-effect-free.  A missing
or empty secret header, an index header that is missing or has no parsable
integer, or a negative parsed index yields 400; past those checks a wrong
secret yields 403; past the secret check an absent or empty drawings object
yields 404 (even though any index is then out of bounds — not the 400 the
original claim states); otherwise an index at least the record count yields
400.  In every one of these cases the store state — all three stored
objects — is unchanged. -/
theorem c5_delete_validation_no_mutation (env : StoreState) (rq : GuestRequest)
    (key : String) (f : Bool) :
    ((¬ headerTruthy rq.secretKey = true ∨ rq.drawingIndex.bind parseIntBase10 = none
        ∨ (rq.drawingIndex.bind parseIntBase10).getD 0 < 0) →
      (DELETE env rq key f).status = 400 ∧ (DELETE env rq key f).state = env)
    ∧ (∀ i : Int, headerTruthy rq.secretKey = true →
        rq.drawingIndex.bind parseIntBase10 = some i → 0 ≤ i →
        rq.secretKey.getD "" ≠ key →
        (DELETE env rq key f).status = 403 ∧ (DELETE env rq key f).state = env)
    ∧ (∀ i : Int, headerTruthy rq.secretKey = true →
        rq.drawingIndex.bind parseIntBase10 = some i → 0 ≤ i →
        rq.secretKey.getD "" = key →
        (env.drawings = none ∨ env.drawings = some []) →
        (DELETE env rq key f).status = 404 ∧ (DELETE env rq key f).state = env)
    ∧ (∀ (i : Int) (c : List Nat), headerTruthy rq.secretKey = true →
        rq.drawingIndex.bind parseIntBase10 = some i → 0 ≤ i →
        rq.secretKey.getD "" = key →
        env.drawings = some c → c ≠ [] →
        ((parseDrawings c).length : Int) ≤ i →
        (DELETE env rq key f).status = 400 ∧ (DELETE env rq key f).state = env) := by
  refine ⟨?_, ?_, ?_, ?_⟩
  · intro h
    unfold DELETE
    dsimp only
    rw [if_pos h]
    exact ⟨rfl, rfl⟩
  · intro i hk hb hi hne
    unfold DELETE
    dsimp only
    rw [if_neg (by
      push_neg
      exact ⟨hk, by simp [hb], by rw [hb]; simpa using hi⟩)]
    rw [if_pos hne]
    exact ⟨rfl, rfl⟩
  · intro i hk hb hi heq hdrw
    unfold DELETE
    dsimp only
    rw [if_neg (by
      push_neg
      exact ⟨hk, by simp [hb], by rw [hb]; simpa using hi⟩)]
    rw [if_neg (by simpa using heq)]
    rcases hdrw with h | h <;> rw [h]
    · exact ⟨rfl, rfl⟩
    · simp
  · intro i c hk hb hi heq hdrw hcne hoob
    have hsome : ∃ s, rq.secretKey = some s ∧ s ≠ "" := by
      cases hsk : rq.secretKey with
      | none => rw [hsk] at hk; simp [headerTruthy] at hk
      | some s =>
        refine ⟨s, rfl, ?_⟩
        rw [hsk] at hk
        simpa [headerTruthy] using hk
    obtain ⟨s, hs, hsne⟩ := hsome
    have hskey : s = key := by
      rw [hs] at heq
      simpa using heq
    subst hskey
    have hcore := DELETE_eq_core env rq s f c i hs hsne hb hi hdrw hcne
    rw [hcore]
    unfold deleteCore
    dsimp only
    rw [if_pos (by exact_mod_cast hoob)]
    exact ⟨rfl, rfl⟩

/-- Claim C5, witness: a DELETE with a missing secret header returns 400
and leaves a concrete store state unchanged. -/
theorem c5_delete_validation_no_mutation_witness :
    (DELETE ⟨some [1], [blankMetadata], []⟩
        ⟨none, none, none, [], none, some "0", none⟩ "k" true).status = 400 ∧
      (DELETE ⟨some [1], [blankMetadata], []⟩
        ⟨none, none, none, [], none, some "0", none⟩ "k" true).state
        = ⟨some [1], [blankMetadata], []⟩ :=
  (c5_delete_validation_no_mutation ⟨some [1], [blankMetadata], []⟩
    ⟨none, none, none, [], none, some "0", none⟩ "k" true).1 (Or.inl (by decide))

/-! ### Claim C6 -/

/-- Claim C6 (confirmed): metadata backfill preserves alignment.  First,
whenever the stored metadata array is shorter than the drawing count, the
deficit is filled by inserting blank entries (all fields absent) at the
start of the array, and that array is what gets stored.  Second, in the
legacy scenario — a log decoding to 3 records and a metadata array of
length 0 — a successful POST produces a metadata array of length 4 whose
first 3 entries are blank and whose last entry is the newly populated one,
positionally aligned with the 4 stored drawings. -/
theorem c6_metadata_backfill :
    (∀ (env : StoreState) (c : Nat), env.metadata.length < c →
      (backfillMetadataStep env c).1
          = List.replicate (c - env.metadata.length) blankMetadata ++ env.metadata
        ∧ (backfillMetadataStep env c).2.metadata = (backfillMetadataStep env c).1)
    ∧ (∀ (env : StoreState) (rq : GuestRequest) (newId : String) (now : Nat)
        (blob r0 r1 r2 buf : List Nat),
        env.metadata = [] →
        env.drawings = some blob →
        parseDrawings blob = [r0, r1, r2] →
        env.blockedIPs.contains (blockLookupKey (getClientIP rq)) = false →
        serializeDrawings [r0, r1, r2, rq.body] = some buf →
        (POST env rq newId now true).status = 200 ∧
          (POST env rq newId now true).state.metadata
            = List.replicate 3 blankMetadata
                ++ [DrawingMetadata.mk (some newId) (getClientIP rq) (some now)] ∧
          (POST env rq newId now true).state.metadata.length = 4 ∧
          (POST env rq newId now true).state.drawings = some buf ∧
          (rq.body ≠ [] → delimiterByte ∉ rq.body → (parseDrawings buf).length = 4)) := by
  constructor
  · intro env c h
    unfold backfillMetadataStep
    rw [if_pos h]
    exact ⟨rfl, rfl⟩
  · intro env rq newId now blob r0 r1 r2 buf hmd hdrw hparse hnb hser
    have hser' : serializeDrawings (parseDrawings (env.drawings.getD []) ++ [rq.body])
        = some buf := by
      rw [hdrw]
      show serializeDrawings (parseDrawings blob ++ [rq.body]) = some buf
      rw [hparse]
      simpa using hser
    have hpost := POST_success env rq newId now true buf hnb hser'
    have hc : (parseDrawings (env.drawings.getD []) ++ [rq.body]).length - 1 = 3 := by
      rw [hdrw]
      show (parseDrawings blob ++ [rq.body]).length - 1 = 3
      rw [hparse]
      simp
    have hstep : backfillMetadataStep (setDrawings env buf)
          ((parseDrawings (env.drawings.getD []) ++ [rq.body]).length - 1)
        = (List.replicate 3 blankMetadata,
            setMetadata (setDrawings env buf) (List.replicate 3 blankMetadata)) := by
      rw [hc]
      unfold backfillMetadataStep
      rw [if_pos (by rw [metadata_setDrawings, hmd]; simp)]
      rw [metadata_setDrawings, hmd]
      simp
    refine ⟨by rw [hpost]; rfl, ?_, ?_, by rw [hpost]; simp, ?_⟩
    · rw [hpost]
      simp only [HandlerResult.mk.injEq]
      rw [metadata_setMetadata, hstep]
    · rw [hpost]
      simp only [metadata_setMetadata]
      rw [hstep]
      simp
    · intro hbne hbfree
      have hwf : ∀ r ∈ [r0, r1, r2, rq.body], r ≠ [] ∧ delimiterByte ∉ r := by
        intro r hr
        simp only [List.mem_cons, List.not_mem_nil, or_false] at hr
        rcases hr with h | h | h | h
        · rw [h]; exact mem_parseDrawings blob r0 (by rw [hparse]; simp)
        · rw [h]; exact mem_parseDrawings blob r1 (by rw [hparse]; simp)
        · rw [h]; exact mem_parseDrawings blob r2 (by rw [hparse]; simp)
        · rw [h]; exact ⟨hbne, hbfree⟩
      have := parse_serialize_length [r0, r1, r2, rq.body] buf hwf hser
      simpa using this

/-- Claim C6, witness: a store with empty metadata backfilled to drawing
count 1 gains exactly one blank entry at the start, and it is stored. -/
theorem c6_metadata_backfill_witness :
    (backfillMetadataStep ⟨none, [], []⟩ 1).1
        = List.replicate (1 - (StoreState.metadata ⟨none, [], []⟩).length) blankMetadata
            ++ StoreState.metadata ⟨none, [], []⟩
      ∧ (backfillMetadataStep ⟨none, [], []⟩ 1).2.metadata
        = (backfillMetadataStep ⟨none, [], []⟩ 1).1 :=
  c6_metadata_backfill.1 ⟨none, [], []⟩ 1 (by decide)

/-! ### Claim C7 -/

/-- Claim C7, counterexample: a POST whose submitter IP cannot be resolved
is rejected by the block check when the blocked set contains the sentinel
string "---" — the absent IP is looked up as `"---"`
(`blockedIPs.has(clientIP || "---")`), so it is not "never rejected". -/
theorem c7_counterexample :
    getClientIP (plainRequest [1]) = none ∧
      (POST ⟨none, [], ["---"]⟩ (plainRequest [1]) "id" 0 true).status = 503 ∧
      (POST ⟨none, [], ["---"]⟩ (plainRequest [1]) "id" 0 true).state = ⟨none, [], ["---"]⟩ := by
  refine ⟨by decide, by decide, by decide⟩

/-- Claim C7 (amended): block gate on append.  A POST whose resolved
submitter IP is a nonempty string in the blocked set is rejected with 503
and the whole store (in particular the drawing log) is unchanged.  A POST
whose submitter IP cannot be resolved is looked up under the sentinel
"---", so it is never rejected by the block check as long as "---" itself
is not in the blocked set (the counterexample shows it is rejected
otherwise). -/
theorem c7_block_gate (env : StoreState) (rq : GuestRequest) (newId : String)
    (now : Nat) (f : Bool) :
    (∀ ip : String, getClientIP rq = some ip → ip ≠ "" → ip ∈ env.blockedIPs →
      (POST env rq newId now f).status = 503 ∧ (POST env rq newId now f).state = env)
    ∧ (getClientIP rq = none → "---" ∉ env.blockedIPs →
      (POST env rq newId now f).status ≠ 503) := by
  constructor
  · intro ip hip hipne hmem
    have hk : blockLookupKey (getClientIP rq) = ip := by
      rw [hip]
      simp [blockLookupKey, hipne]
    unfold POST
    dsimp only
    rw [hk, if_pos (by simpa using hmem)]
    exact ⟨rfl, rfl⟩
  · intro hip hmem
    have hk : blockLookupKey (getClientIP rq) = "---" := by
      rw [hip]
      rfl
    unfold POST
    dsimp only
    rw [hk, if_neg (by simpa using hmem)]
    cases hser : serializeDrawings (parseDrawings (env.drawings.getD []) ++ [rq.body]) with
    | none => simp
    | some b => cases f <;> simp

/-- Claim C7, witness: a POST from the concrete blocked IP 1.2.3.4 is
rejected with 503 and leaves the store unchanged. -/
theorem c7_block_gate_witness :
    (POST ⟨none, [], ["1.2.3.4"]⟩ ⟨some "1.2.3.4", none, none, [1], none, none, none⟩
        "id" 0 true).status = 503 ∧
      (POST ⟨none, [], ["1.2.3.4"]⟩ ⟨some "1.2.3.4", none, none, [1], none, none, none⟩
        "id" 0 true).state = ⟨none, [], ["1.2.3.4"]⟩ :=
  (c7_block_gate ⟨none, [], ["1.2.3.4"]⟩ ⟨some "1.2.3.4", none, none, [1], none, none, none⟩
      "id" 0 true).1 "1.2.3.4" (by decide) (by decide) (by decide)

/-! ### Claim C8 -/

/-- Claim C8: the claim is right about intent but the code breaks it — the
webhook `fetch` is awaited inside the handler's `try`, so a rejected fetch
turns the response into a 500 even though the storage mutation already
happened and persists.  Concretely: a POST of `[1]` onto an empty store
whose webhook fetch rejects returns 500, yet the drawings blob and the
metadata entry were written; a DELETE (index 0, block-ip requested) whose
webhook fetch rejects returns 500, yet the drawing was removed and the IP
blocked.  The already-performed mutation is indeed never rolled back, but
the primary response does not report the operation's success status. -/
theorem c8_webhook_failure_changes_response :
    (POST ⟨none, [], []⟩ (plainRequest [1]) "id" 7 false).status = 500 ∧
      (POST ⟨none, [], []⟩ (plainRequest [1]) "id" 7 false).state.drawings
        = some ([1] ++ List.replicate 63 0) ∧
      (POST ⟨none, [], []⟩ (plainRequest [1]) "id" 7 false).state.metadata
        = [⟨some "id", none, some 7⟩] ∧
      (DELETE ⟨some [1, 255, 2], [⟨some "a", some "9.9.9.9", some 0⟩, ⟨some "b", some "8.8.8.8", some 1⟩], []⟩
          ⟨none, none, none, [], some "k", some "0", some "true"⟩ "k" false).status = 500 ∧
      (DELETE ⟨some [1, 255, 2], [⟨some "a", some "9.9.9.9", some 0⟩, ⟨some "b", some "8.8.8.8", some 1⟩], []⟩
          ⟨none, none, none, [], some "k", some "0", some "true"⟩ "k" false).state
        = ⟨some ([2] ++ List.replicate 63 0), [⟨some "b", some "8.8.8.8", some 1⟩], ["9.9.9.9"]⟩ := by
  refine ⟨by decide, by decide, by decide, by decide, by decide⟩

/-! ### Claim C9 -/

/-- Claim C9, counterexample: deleting the sole record is not always free
of metadata writes — with stored metadata `[]` and one drawing, the DELETE
first backfills (writing `[blankMetadata]`) before re-serialization throws,
so the stored metadata array does change. -/
theorem c9_counterexample :
    StoreState.metadata ⟨some [7], [], []⟩ = [] ∧
      (DELETE ⟨some [7], [], []⟩ ⟨none, none, none, [], some "k", some "0", none⟩
        "k" true).status = 500 ∧
      (DELETE ⟨some [7], [], []⟩ ⟨none, none, none, [], some "k", some "0", none⟩
        "k" true).state.metadata = [blankMetadata] := by
  refine ⟨by decide, by decide, by decide⟩

/-- Claim C9 (amended): `serializeDrawings` of the empty sequence computes
the buffer length −1 and throws; consequently, for a log holding exactly
one record, every DELETE of that record (valid secret, index 0) returns 500
and leaves the drawings blob and the blocked set unchanged — the log still
decodes to its one record, so the log can never be emptied through the API.
The metadata array is also unchanged whenever it already has at least one
entry; when it was empty, the pre-delete backfill has stored `[blankMetadata]`
(see the counterexample). -/
theorem c9_sole_record_delete (env : StoreState) (rq : GuestRequest)
    (key : String) (f : Bool) (blob rec : List Nat)
    (hdr : env.drawings = some blob)
    (hparse : parseDrawings blob = [rec])
    (hkey : rq.secretKey = some key) (hkeyne : key ≠ "")
    (hidx : rq.drawingIndex.bind parseIntBase10 = some 0) :
    serializeTotalLength [] = -1 ∧ serializeDrawings [] = none ∧
      (DELETE env rq key f).status = 500 ∧
      (DELETE env rq key f).state.drawings = env.drawings ∧
      (DELETE env rq key f).state.blockedIPs = env.blockedIPs ∧
      (env.metadata ≠ [] → (DELETE env rq key f).state.metadata = env.metadata) ∧
      (env.metadata = [] → (DELETE env rq key f).state.metadata = [blankMetadata]) ∧
      parseDrawings ((DELETE env rq key f).state.drawings.getD []) ≠ [] := by
  have hbne : blob ≠ [] := by
    intro h
    rw [h] at hparse
    simp [parseDrawings] at hparse
  have hcore := DELETE_eq_core env rq key f blob 0 hkey hkeyne hidx le_rfl hdr hbne
  have hcoreval : deleteCore env rq f blob 0 = ⟨500, (backfillMetadataStep env 1).2⟩ := by
    unfold deleteCore
    dsimp only
    rw [hparse]
    rw [if_neg (by simp)]
    simp only [show Int.toNat 0 = 0 from rfl, List.length_singleton,
      show ∀ r : List Nat, [r].eraseIdx 0 = [] from fun r => rfl,
      show serializeDrawings [] = none from rfl]
  rw [hcore, hcoreval]
  refine ⟨by decide, rfl, rfl, by simp, by simp, ?_, ?_, ?_⟩
  · intro hne
    simp only [backfill_state_metadata]
    rw [backfill_of_ge env 1 (by
      cases hm : env.metadata with
      | nil => exact absurd hm hne
      | cons a l => simp)]
  · intro hniil
    simp only [backfill_state_metadata]
    unfold backfillMetadataStep
    rw [if_pos (by rw [hniil]; simp)]
    rw [hniil]
    simp [List.replicate]
  · simp only [backfill_state_drawings]
    rw [hdr]
    simp only [Option.getD_some]
    rw [hparse]
    simp

/-- Claim C9, witness: the amended sole-record-delete property evaluated on
a store holding one record `[7]` and one metadata entry. -/
theorem c9_sole_record_delete_witness :
    serializeTotalLength [] = -1 ∧ serializeDrawings [] = none ∧
      (DELETE ⟨some [7], [blankMetadata], []⟩
        ⟨none, none, none, [], some "k", some "0", none⟩ "k" true).status = 500 ∧
      (DELETE ⟨some [7], [blankMetadata], []⟩
        ⟨none, none, none, [], some "k", some "0", none⟩ "k" true).state.drawings
        = StoreState.drawings ⟨some [7], [blankMetadata], []⟩ ∧
      (DELETE ⟨some [7], [blankMetadata], []⟩
        ⟨none, none, none, [], some "k", some "0", none⟩ "k" true).state.blockedIPs
        = StoreState.blockedIPs ⟨some [7], [blankMetadata], []⟩ ∧
      (StoreState.metadata ⟨some [7], [blankMetadata], []⟩ ≠ [] →
        (DELETE ⟨some [7], [blankMetadata], []⟩
          ⟨none, none, none, [], some "k", some "0", none⟩ "k" true).state.metadata
          = StoreState.metadata ⟨some [7], [blankMetadata], []⟩) ∧
      (StoreState.metadata ⟨some [7], [blankMetadata], []⟩ = [] →
        (DELETE ⟨some [7], [blankMetadata], []⟩
          ⟨none, none, none, [], some "k", some "0", none⟩ "k" true).state.metadata
          = [blankMetadata]) ∧
      parseDrawings ((DELETE ⟨some [7], [blankMetadata], []⟩
        ⟨none, none, none, [], some "k", some "0", none⟩ "k" true).state.drawings.getD [])
        ≠ [] :=
  c9_sole_record_delete ⟨some [7], [blankMetadata], []⟩
    ⟨none, none, none, [], some "k", some "0", none⟩ "k" true [7] [7]
    rfl (by decide) rfl (by decide) (by decide)

/-! ### Claim C10 -/

/-- Claim C10 (confirmed): backfill only reconciles a deficit.  When the
stored metadata array is at least as long as the drawing count,
`backfillMetadataStep` returns the stored array unchanged and performs no
storage write (the state is returned as is).  Excess metadata entries are
never trimmed by any operation: POST never shortens the metadata array, and
a DELETE never decreases the surplus of metadata entries over decoded
drawing records. -/
theorem c10_backfill_noop_excess_kept :
    (∀ (env : StoreState) (c : Nat), c ≤ env.metadata.length →
      backfillMetadataStep env c = (env.metadata, env))
    ∧ (∀ (env : StoreState) (rq : GuestRequest) (newId : String) (now : Nat) (f : Bool),
      env.metadata.length ≤ (POST env rq newId now f).state.metadata.length)
    ∧ (∀ (env : StoreState) (rq : GuestRequest) (key : String) (f : Bool),
      (parseDrawings (env.drawings.getD [])).length ≤ env.metadata.length →
      (env.metadata.length : Int) - (parseDrawings (env.drawings.getD [])).length
        ≤ ((DELETE env rq key f).state.metadata.length : Int)
          - (parseDrawings ((DELETE env rq key f).state.drawings.getD [])).length) := by
  refine ⟨backfill_of_ge, ?_, ?_⟩
  · intro env rq newId now f
    unfold POST
    dsimp only
    by_cases hb : env.blockedIPs.contains (blockLookupKey (getClientIP rq)) = true
    · rw [if_pos hb]
    · rw [if_neg hb]
      cases hser : serializeDrawings (parseDrawings (env.drawings.getD []) ++ [rq.body]) with
      | none => simp
      | some buf =>
        have hlen := backfill_fst_length (setDrawings env buf)
          ((parseDrawings (env.drawings.getD []) ++ [rq.body]).length - 1)
        simp only [metadata_setDrawings] at hlen
        simp only [List.length_append, List.length_singleton, Nat.add_sub_cancel] at hlen
        cases f <;>
          simp [metadata_setMetadata, List.length_append, hlen] <;>
          omega
  · intro env rq key f h
    unfold DELETE
    dsimp only
    by_cases h1 : (¬ headerTruthy rq.secretKey = true
        ∨ rq.drawingIndex.bind parseIntBase10 = none
        ∨ (rq.drawingIndex.bind parseIntBase10).getD 0 < 0)
    · rw [if_pos h1]
    · rw [if_neg h1]
      push_neg at h1
      by_cases h2 : rq.secretKey.getD "" ≠ key
      · rw [if_pos h2]
      · rw [if_neg h2]
        cases hdrw : env.drawings with
        | none => simp [hdrw]
        | some fileContent =>
          rw [hdrw] at h
          simp only [Option.getD_some] at h ⊢
          by_cases h3 : fileContent.length = 0
          · rw [if_pos h3]
            simp [hdrw]
          · rw [if_neg h3]
            unfold deleteCore
            dsimp only
            by_cases h4 : (rq.drawingIndex.bind parseIntBase10).getD 0
                ≥ ((parseDrawings fileContent).length : Int)
            · rw [if_pos h4]
              simp [hdrw]
            · rw [if_neg h4]
              have hi0 : 0 ≤ (rq.drawingIndex.bind parseIntBase10).getD 0 := by
                have := h1.2.2
                omega
              push_neg at h4
              have hidxlt : ((rq.drawingIndex.bind parseIntBase10).getD 0).toNat
                  < (parseDrawings fileContent).length := by omega
              rw [backfill_of_ge env (parseDrawings fileContent).length h]
              dsimp only
              cases hser : serializeDrawings ((parseDrawings fileContent).eraseIdx
                  ((rq.drawingIndex.bind parseIntBase10).getD 0).toNat) with
              | none => simp [hdrw]
              | some buf =>
                have hwfrem : ∀ r ∈ (parseDrawings fileContent).eraseIdx
                    ((rq.drawingIndex.bind parseIntBase10).getD 0).toNat,
                    r ≠ [] ∧ delimiterByte ∉ r :=
                  fun r hr => mem_parseDrawings fileContent r
                    (List.eraseIdx_subset _ _ hr)
                have hplen := parse_serialize_length _ buf hwfrem hser
                rw [List.length_eraseIdx, if_pos hidxlt] at hplen
                have hmlen : (env.metadata.eraseIdx
                    ((rq.drawingIndex.bind parseIntBase10).getD 0).toNat).length
                    = env.metadata.length - 1 := by
                  rw [List.length_eraseIdx, if_pos (by omega)]
                dsimp only
                repeat' split
                all_goals
                  simp only [metadata_setMetadata, metadata_setBlockedIPs,
                    drawings_setBlockedIPs, drawings_setMetadata, drawings_setDrawings,
                    Option.getD_some, hmlen, hplen]
                all_goals omega

/-- Claim C10, witness: a backfill whose target count (1) does not exceed
the stored metadata length (2) returns the stored array and state
unchanged. -/
theorem c10_backfill_noop_excess_kept_witness :
    backfillMetadataStep ⟨none, [blankMetadata, blankMetadata], []⟩ 1
      = (StoreState.metadata ⟨none, [blankMetadata, blankMetadata], []⟩,
          ⟨none, [blankMetadata, blankMetadata], []⟩) :=
  c10_backfill_noop_excess_kept.1 ⟨none, [blankMetadata, blankMetadata], []⟩ 1 (by decide)

end Guestbook
